import Mathlib

/-!
Verification of the batched density-matrix simulator core of
`torchquantum/device/noisedevices.py` (classes `NoiseModel` and `NoiseDevice`).

Complex tensor entries are modelled as pairs of rationals (the float dtype of
the source is modelled by exact arithmetic).  Tensors are modelled in the flat
row-major (C-contiguous) layout torch uses: a shape list plus a flat data list.
-/

set_option autoImplicit false

/-- A complex scalar: `re + im * i`, with exact rational components. -/
@[ext]
structure Cx where
  re : ℚ
  im : ℚ
  deriving DecidableEq

instance : Zero Cx := ⟨⟨0, 0⟩⟩
instance : One Cx := ⟨⟨1, 0⟩⟩
instance : Add Cx := ⟨fun z w => ⟨z.re + w.re, z.im + w.im⟩⟩
instance : Mul Cx := ⟨fun z w => ⟨z.re * w.re - z.im * w.im, z.re * w.im + z.im * w.re⟩⟩

/-- Complex conjugation (`torch.conj`). -/
def Cx.conj (z : Cx) : Cx := ⟨z.re, -z.im⟩

@[simp] theorem Cx.zero_re : (0 : Cx).re = 0 := rfl
@[simp] theorem Cx.zero_im : (0 : Cx).im = 0 := rfl
@[simp] theorem Cx.one_re : (1 : Cx).re = 1 := rfl
@[simp] theorem Cx.one_im : (1 : Cx).im = 0 := rfl
@[simp] theorem Cx.add_re (z w : Cx) : (z + w).re = z.re + w.re := rfl
@[simp] theorem Cx.add_im (z w : Cx) : (z + w).im = z.im + w.im := rfl
@[simp] theorem Cx.mul_re (z w : Cx) : (z * w).re = z.re * w.re - z.im * w.im := rfl
@[simp] theorem Cx.mul_im (z w : Cx) : (z * w).im = z.re * w.im + z.im * w.re := rfl
@[simp] theorem Cx.conj_re (z : Cx) : z.conj.re = z.re := rfl
@[simp] theorem Cx.conj_im (z : Cx) : z.conj.im = -z.im := rfl

instance : AddCommMonoid Cx where
  add_assoc a b c := by ext <;> simp <;> ring
  zero_add a := by ext <;> simp
  add_zero a := by ext <;> simp
  add_comm a b := by ext <;> simp <;> ring
  nsmul := nsmulRec

@[simp] theorem Cx.zero_mul (z : Cx) : (0 : Cx) * z = 0 := by ext <;> simp
@[simp] theorem Cx.mul_zero (z : Cx) : z * (0 : Cx) = 0 := by ext <;> simp
@[simp] theorem Cx.one_mul (z : Cx) : (1 : Cx) * z = z := by ext <;> simp
@[simp] theorem Cx.mul_one (z : Cx) : z * (1 : Cx) = z := by ext <;> simp
@[simp] theorem Cx.conj_zero : Cx.conj 0 = 0 := by ext <;> simp
@[simp] theorem Cx.conj_one : Cx.conj 1 = 1 := by ext <;> simp

/-- The magnitude `|z|` (`torch.abs` on a complex tensor entry). -/
noncomputable def Cx.abs (z : Cx) : ℝ :=
  Real.sqrt ((z.re : ℝ) ^ 2 + (z.im : ℝ) ^ 2)

/-- A torch tensor: a shape and its flat row-major data. -/
structure Tensor where
  shape : List ℕ
  data : List Cx
  deriving DecidableEq

/-- `Tensor.dim` models `torch.Tensor.dim()`: the number of axes. -/
def Tensor.dim (t : Tensor) : ℕ := t.shape.length

/-- `torch.reshape(t, newshape)` with explicit dimensions: row-major data is
unchanged; the call raises unless the element counts agree (modelled by
`none`). -/
def treshape (newshape : List ℕ) (t : Tensor) : Option Tensor :=
  if newshape.prod = t.shape.prod then some ⟨newshape, t.data⟩ else none

/-- `t[i]` for a tensor with a leading batch axis: drops the leading axis and
selects the `i`-th slice of the flat data. -/
def tindex (t : Tensor) (i : ℕ) : Tensor :=
  ⟨t.shape.tail,
   (List.range t.shape.tail.prod).map fun j =>
     t.data.getD (i * t.shape.tail.prod + j) 0⟩

/-- `t.repeat(b, 1, ..., 1)`: tile `b` copies along a new leading axis. -/
def trepeat_lead (b : ℕ) (t : Tensor) : Tensor :=
  ⟨b :: t.shape,
   (List.range (b * t.shape.prod)).map fun k => t.data.getD (k % t.shape.prod) 0⟩

/-- `t.view(-1, k, 1)`: infers the leading dimension as `numel / k`; raises
(`none`) when `k` does not divide the element count. -/
def tview_m1 (k : ℕ) (t : Tensor) : Option Tensor :=
  if 0 < k ∧ k ∣ t.shape.prod then
    some ⟨[t.shape.prod / k, k, 1], t.data⟩
  else none

/-- `torch.conj(t)`: elementwise complex conjugation. -/
def tconj (t : Tensor) : Tensor := ⟨t.shape, t.data.map Cx.conj⟩

/-- `t.transpose(1, 2)` on a 3-axis tensor of shape `[a, m, c]`: result has
shape `[a, c, m]`, with entry `(i, k, j)` read from entry `(i, j, k)` of the
input. -/
def transpose12 (t : Tensor) : Tensor :=
  let a := t.shape.getD 0 0
  let m := t.shape.getD 1 0
  let c := t.shape.getD 2 0
  ⟨[a, c, m],
   (List.range (a * c * m)).map fun idx =>
     t.data.getD
       ((idx / (c * m)) * (m * c) + ((idx % (c * m)) % m) * c + (idx % (c * m)) / m) 0⟩

/-- `torch.bmm A B` for `A : [q, r, m]` and `B : [q, m, p]`: batched matrix
product of shape `[q, r, p]`. -/
def bmm (A B : Tensor) : Tensor :=
  let q := A.shape.getD 0 0
  let r := A.shape.getD 1 0
  let m := A.shape.getD 2 0
  let p := B.shape.getD 2 0
  ⟨[q, r, p],
   (List.range (q * r * p)).map fun idx =>
     ((List.range m).map fun k =>
       A.data.getD ((idx / (r * p)) * (r * m) + ((idx % (r * p)) / p) * m + k) 0 *
       B.data.getD ((idx / (r * p)) * (m * p) + k * p + ((idx % (r * p)) % p)) 0).sum⟩

/-- `torch.trace` of a 2-axis tensor: sum of the main diagonal. -/
def ttrace (t : Tensor) : Cx :=
  let rows := t.shape.getD 0 0
  let cols := t.shape.getD 1 0
  ((List.range (min rows cols)).map fun j => t.data.getD (j * cols + j) 0).sum

/-- One entry of the operation ledger (`op_history`): an opaque descriptor
`{name, wires, params}` appended by externally attached operators. -/
structure OpRecord where
  name : String
  wires : List ℕ
  params : List Cx
  deriving DecidableEq

/-- `NoiseModel`: stores the kraus dictionary as given, no validation. -/
structure NoiseModel where
  kraus_dict : List (String × ℚ)
  deriving DecidableEq

/-- The default noise model `NoiseModel(kraus_dict={"Bitflip": 0, "Phaseflip": 0})`. -/
def nm0 : NoiseModel := ⟨[("Bitflip", 0), ("Phaseflip", 0)]⟩

/-- The state of a `NoiseDevice` instance: its constructor-set attributes, the
single-density snapshot `density`, the batched buffer `densities`, and the
operation ledger. -/
structure NoiseDevice where
  n_wires : ℕ
  device_name : String
  bsz : ℕ
  device : String
  density : Tensor
  densities : Tensor
  record_op : Bool
  op_history : List OpRecord
  noise_model : NoiseModel
  deriving DecidableEq

/-- `NoiseDevice.__init__`: `_density = zeros(2 ** (2 * n_wires))`,
`_density[0] = 1`, reshaped to `[2] * (2 * n_wires)`; `densities` is `density`
repeated `bsz` times along a new leading axis; the ledger starts empty. -/
def NoiseDevice.init (n_wires : ℕ) (device_name : String) (bsz : ℕ)
    (device : String) (record_op : Bool) (noise_model : NoiseModel) :
    NoiseDevice :=
  let flat : List Cx := (List.replicate (2 ^ (2 * n_wires)) 0).set 0 1
  let density : Tensor := ⟨List.replicate (2 * n_wires) 2, flat⟩
  { n_wires := n_wires
    device_name := device_name
    bsz := bsz
    device := device
    density := density
    densities := trepeat_lead bsz density
    record_op := record_op
    op_history := []
    noise_model := noise_model }

/-- `reset_op_history`: clears the ledger. -/
def NoiseDevice.reset_op_history (d : NoiseDevice) : NoiseDevice :=
  { d with op_history := [] }

/-- `get_2d_matrix(index)`: `reshape(densities[index], [2 ** n_wires] * 2)`. -/
def NoiseDevice.get_2d_matrix (d : NoiseDevice) (i : ℕ) : Option Tensor :=
  treshape [2 ^ d.n_wires, 2 ^ d.n_wires] (tindex d.densities i)

/-- `print_2d(index)` prints `reshape(densities[index], [2 ** n_wires] * 2)`;
we model the value it prints. -/
def NoiseDevice.print_2d (d : NoiseDevice) (i : ℕ) : Option Tensor :=
  treshape [2 ^ d.n_wires, 2 ^ d.n_wires] (tindex d.densities i)

/-- `get_densities_2d`: reshape the whole batch to
`[densities.shape[0], 2 ** n_wires, 2 ** n_wires]`. -/
def NoiseDevice.get_densities_2d (d : NoiseDevice) : Option Tensor :=
  treshape [d.densities.shape.headD 0, 2 ^ d.n_wires, 2 ^ d.n_wires] d.densities

/-- `get_density_2d`: reshape the snapshot to `[2 ** n_wires, 2 ** n_wires]`. -/
def NoiseDevice.get_density_2d (d : NoiseDevice) : Option Tensor :=
  treshape [2 ^ d.n_wires, 2 ^ d.n_wires] d.density

/-- `calc_trace(index)`: `torch.trace(reshape(densities[index], [2 ** n_wires] * 2))`. -/
def NoiseDevice.calc_trace (d : NoiseDevice) (i : ℕ) : Option Cx :=
  (treshape [2 ^ d.n_wires, 2 ^ d.n_wires] (tindex d.densities i)).map ttrace

/-- `get_probs_1d`: reshape `densities` to `[densities.shape[0], 2 ** n, 2 ** n]`
and take `torch.abs` of the batched main diagonal (`dim1=1, dim2=2`). -/
noncomputable def NoiseDevice.get_probs_1d (d : NoiseDevice) :
    Option (List (List ℝ)) :=
  let bsz := d.densities.shape.headD 0
  let N := 2 ^ d.n_wires
  (treshape [bsz, N, N] d.densities).map fun t =>
    (List.range bsz).map fun i =>
      (List.range N).map fun j => Cx.abs (t.data.getD (i * (N * N) + j * N + j) 0)

/-- `get_prob_1d`: `torch.abs` of the diagonal of the reshaped snapshot. -/
noncomputable def NoiseDevice.get_prob_1d (d : NoiseDevice) : Option (List ℝ) :=
  let N := 2 ^ d.n_wires
  (treshape [N, N] d.density).map fun t =>
    (List.range N).map fun j => Cx.abs (t.data.getD (j * N + j) 0)

/-- `clone_densities(existing_densities)`: `self.densities = existing_densities.clone()`.
A `.clone()` is a deep value copy, so in the functional model the buffer is
simply replaced by the source value; the source performs no shape check. -/
def NoiseDevice.clone_densities (d : NoiseDevice) (existing_densities : Tensor) :
    NoiseDevice :=
  { d with densities := existing_densities }

/-- The ways `clone_from_states` can raise. -/
inductive CloneErr where
  /-- the `assert 2 * (existing_states.dim() - 1) == (self.densities.dim() - 1)` fails -/
  | assertFailed : CloneErr
  /-- `existing_states.view(-1, state_dim, 1)` fails (indivisible element count) -/
  | viewFailed : CloneErr
  /-- the final `torch.reshape(self.densities, [bsz] + [2] * (2 * n_wires))` fails -/
  | reshapeFailed : CloneErr
  deriving DecidableEq

/-- `clone_from_states(existing_states)`, statement by statement.  The result
pairs the raised exception (if any) with the device state after the call:
note that the source assigns `self.densities = torch.bmm(...)` before the
final reshape, so a failing reshape leaves that intermediate assignment in
place. -/
def NoiseDevice.clone_from_states (d : NoiseDevice) (existing_states : Tensor) :
    Option CloneErr × NoiseDevice :=
  if (2 : ℤ) * ((existing_states.dim : ℤ) - 1) = (d.densities.dim : ℤ) - 1 then
    match tview_m1 (2 ^ d.n_wires) existing_states with
    | none => (some CloneErr.viewFailed, d)
    | some states_reshaped =>
      let states_conj_transpose := transpose12 (tconj states_reshaped)
      let d1 : NoiseDevice :=
        { d with densities := bmm states_reshaped states_conj_transpose }
      match treshape (existing_states.shape.headD 0 :: List.replicate (2 * d.n_wires) 2)
          d1.densities with
      | none => (some CloneErr.reshapeFailed, d1)
      | some r => (none, { d1 with densities := r })
  else (some CloneErr.assertFailed, d)

/-- A fresh 1-qubit, batch-1 device, with the constructor defaults. -/
def tq_dev11 : NoiseDevice := NoiseDevice.init 1 "noisedevice" 1 "cpu" false nm0

/-- The excited 1-qubit basis state `[0, 1]` as a batch of one state vector. -/
def tq_s01 : Tensor := ⟨[1, 2], [⟨0, 0⟩, ⟨1, 0⟩]⟩

/-- A 2-qubit standard-layout buffer whose single batch element has trace 2. -/
def tq_T2 : Tensor := ⟨[1, 2, 2, 2, 2], (List.replicate 16 (0 : Cx)).set 0 ⟨2, 0⟩⟩

/-- A 2-qubit device whose buffer was wholesale replaced by `tq_T2`. -/
def tq_dev2bad : NoiseDevice :=
  (NoiseDevice.init 2 "noisedevice" 1 "cpu" false nm0).clone_densities tq_T2

/-- A unit-norm pure-state batch of the flat shape `[1, 2 ^ 2]` claimed by C5. -/
def tq_sFlat : Tensor := ⟨[1, 4], [⟨1, 0⟩, 0, 0, 0]⟩

/-- A deliberately mis-shaped source for `clone_densities`: rank 1, size 3. -/
def tq_tBad : Tensor := ⟨[3], [⟨5, 0⟩, ⟨6, 0⟩, ⟨7, 0⟩]⟩

/-- A device equal to `tq_dev11` on the buffers but differing in name, batch
size attribute, recording flag, and ledger. -/
def tq_dev11b : NoiseDevice :=
  { tq_dev11 with
    bsz := 7
    device_name := "other"
    record_op := true
    op_history := [⟨"h", [0], []⟩] }

/-! ### List and index helper lemmas -/

theorem list_getD_map {α β : Type} (f : α → β) (l : List α) (k : ℕ) (dα : α) (dβ : β)
    (h : k < l.length) : (l.map f).getD k dβ = f (l.getD k dα) := by
  induction l generalizing k with
  | nil => simp at h
  | cons a t ih =>
    cases k with
    | zero => rfl
    | succ k =>
      simp only [List.map_cons, List.getD_cons_succ]
      exact ih k (by simpa using h)

theorem list_getD_range_map {α : Type} (f : ℕ → α) (n k : ℕ) (d : α) (h : k < n) :
    ((List.range n).map f).getD k d = f k := by
  rw [list_getD_map f (List.range n) k 0 d (by simpa using h)]
  congr 1
  rw [List.getD_eq_getElem _ _ (by simpa using h)]
  simp

theorem list_getD_replicate {α : Type} (a d : α) (m k : ℕ) (h : k < m) :
    (List.replicate m a).getD k d = a := by
  induction m generalizing k with
  | zero => omega
  | succ m ih =>
    cases k with
    | zero => rfl
    | succ k =>
      rw [List.replicate_succ, List.getD_cons_succ]
      exact ih k (by omega)

theorem oneHot_getD (M k : ℕ) (hk : k < M) :
    ((List.replicate M (0 : Cx)).set 0 1).getD k 0 = if k = 0 then 1 else 0 := by
  cases M with
  | zero => omega
  | succ m =>
    rw [List.replicate_succ, List.set_cons_zero]
    cases k with
    | zero => rfl
    | succ k =>
      simp only [List.getD_cons_succ]
      rw [if_neg (Nat.succ_ne_zero k)]
      cases Nat.lt_or_ge k m with
      | inl h => exact list_getD_replicate _ _ _ _ h
      | inr h => rw [List.getD_eq_default]; simpa using h

theorem map_congr_range {α : Type} (f g : ℕ → α) (N : ℕ) (h : ∀ j, j < N → f j = g j) :
    (List.range N).map f = (List.range N).map g := by
  apply List.map_congr_left
  intro a ha
  exact h a (List.mem_range.mp ha)

theorem sum_range_one_hot (f : ℕ → Cx) (N : ℕ) (hN : 0 < N) (h0 : f 0 = 1)
    (h : ∀ j, j < N → j ≠ 0 → f j = 0) : ((List.range N).map f).sum = 1 := by
  induction N with
  | zero => omega
  | succ m ih =>
    rw [List.range_succ, List.map_append, List.sum_append]
    cases Nat.eq_zero_or_pos m with
    | inl h0' => subst h0'; simpa using h0
    | inr hm =>
      rw [ih hm (fun j hj hj0 => h j (by omega) hj0)]
      have : f m = 0 := h m (by omega) (by omega)
      simp [this]

theorem sum_range_re_im (g : ℕ → ℚ) (N : ℕ) :
    ((List.range N).map fun j => (⟨g j, 0⟩ : Cx)).sum =
      ⟨((List.range N).map g).sum, 0⟩ := by
  induction N with
  | zero => rfl
  | succ m ih =>
    rw [List.range_succ, List.map_append, List.sum_append, ih,
      List.map_append, List.sum_append]
    ext <;> simp

theorem idx_lt {x y N : ℕ} (hx : x < N) (hy : y < N) : x * N + y < N * N :=
  calc x * N + y < x * N + N := by omega
  _ = (x + 1) * N := by ring
  _ ≤ N * N := Nat.mul_le_mul_right N hx

theorem slot_lt {i r b M : ℕ} (hi : i < b) (hr : r < M) : i * M + r < b * M :=
  calc i * M + r < i * M + M := by omega
  _ = (i + 1) * M := by ring
  _ ≤ b * M := Nat.mul_le_mul_right M hi

theorem decode_div {i r M : ℕ} (hr : r < M) : (i * M + r) / M = i := by
  rw [Nat.add_comm, Nat.add_mul_div_right _ _ (by omega : 0 < M),
    Nat.div_eq_of_lt hr, Nat.zero_add]

theorem decode_mod {i r M : ℕ} (hr : r < M) : (i * M + r) % M = r := by
  rw [Nat.add_comm, Nat.add_mul_mod_self_right, Nat.mod_eq_of_lt hr]

theorem pow_two_mul (n : ℕ) : 2 ^ (2 * n) = 2 ^ n * 2 ^ n := by
  rw [two_mul, pow_add]

/-! ### View lemmas for devices with the standard buffer layout -/

theorem get_2d_matrix_spec (d : NoiseDevice) (n b i : ℕ)
    (hn : d.n_wires = n) (hsh : d.densities.shape = b :: List.replicate (2 * n) 2) :
    d.get_2d_matrix i = some ⟨[2 ^ n, 2 ^ n],
      (List.range (2 ^ n * 2 ^ n)).map fun j =>
        d.densities.data.getD (i * (2 ^ n * 2 ^ n) + j) 0⟩ := by
  unfold NoiseDevice.get_2d_matrix tindex treshape
  rw [hn, hsh]
  simp only [List.tail_cons, List.prod_replicate, pow_two_mul,
    List.prod_cons, List.prod_nil, mul_one, if_pos]

theorem calc_trace_spec (d : NoiseDevice) (n b i : ℕ)
    (hn : d.n_wires = n) (hsh : d.densities.shape = b :: List.replicate (2 * n) 2) :
    d.calc_trace i = some (((List.range (2 ^ n)).map fun j =>
      d.densities.data.getD (i * (2 ^ n * 2 ^ n) + (j * 2 ^ n + j)) 0).sum) := by
  unfold NoiseDevice.calc_trace tindex treshape
  rw [hn, hsh]
  simp only [List.tail_cons, List.prod_replicate, pow_two_mul,
    List.prod_cons, List.prod_nil, mul_one, if_pos, Option.map_some']
  unfold ttrace
  simp only [List.getD_cons_zero, List.getD_cons_succ, Nat.min_self, min_self]
  congr 1
  congr 1
  apply map_congr_range
  intro j hj
  exact list_getD_range_map _ _ _ _ (idx_lt hj hj)

theorem get_probs_1d_spec (d : NoiseDevice) (n b : ℕ)
    (hn : d.n_wires = n) (hsh : d.densities.shape = b :: List.replicate (2 * n) 2) :
    d.get_probs_1d = some ((List.range b).map fun i =>
      (List.range (2 ^ n)).map fun j =>
        Cx.abs (d.densities.data.getD (i * (2 ^ n * 2 ^ n) + j * 2 ^ n + j) 0)) := by
  unfold NoiseDevice.get_probs_1d treshape
  rw [hn, hsh]
  simp only [List.headD_cons, List.prod_replicate, pow_two_mul,
    List.prod_cons, List.prod_nil, mul_one, if_pos, Option.map_some']

theorem get_prob_1d_spec (d : NoiseDevice) (n : ℕ)
    (hn : d.n_wires = n) (hsh : d.density.shape = List.replicate (2 * n) 2) :
    d.get_prob_1d = some ((List.range (2 ^ n)).map fun j =>
      Cx.abs (d.density.data.getD (j * 2 ^ n + j) 0)) := by
  unfold NoiseDevice.get_prob_1d treshape
  rw [hn, hsh]
  simp only [List.prod_replicate, pow_two_mul,
    List.prod_cons, List.prod_nil, mul_one, if_pos, Option.map_some']

/-! ### Constructor lemmas -/

theorem init_densities_shape (n : ℕ) (dn : String) (b : ℕ) (dev : String)
    (ro : Bool) (nm : NoiseModel) :
    (NoiseDevice.init n dn b dev ro nm).densities.shape =
      b :: List.replicate (2 * n) 2 := rfl

theorem init_density_shape (n : ℕ) (dn : String) (b : ℕ) (dev : String)
    (ro : Bool) (nm : NoiseModel) :
    (NoiseDevice.init n dn b dev ro nm).density.shape =
      List.replicate (2 * n) 2 := rfl

theorem init_densities_getD (n : ℕ) (dn : String) (b : ℕ) (dev : String)
    (ro : Bool) (nm : NoiseModel) (w : ℕ) (hw : w < b * 2 ^ (2 * n)) :
    (NoiseDevice.init n dn b dev ro nm).densities.data.getD w 0 =
      if w % 2 ^ (2 * n) = 0 then 1 else 0 := by
  show (trepeat_lead b ⟨List.replicate (2 * n) 2,
    (List.replicate (2 ^ (2 * n)) 0).set 0 1⟩).data.getD w 0 = _
  unfold trepeat_lead
  simp only [List.prod_replicate]
  rw [list_getD_range_map _ _ _ _ (by simpa using hw)]
  rw [oneHot_getD _ _ (Nat.mod_lt _ (by positivity))]

theorem init_density_getD (n : ℕ) (dn : String) (b : ℕ) (dev : String)
    (ro : Bool) (nm : NoiseModel) (w : ℕ) (hw : w < 2 ^ (2 * n)) :
    (NoiseDevice.init n dn b dev ro nm).density.data.getD w 0 =
      if w = 0 then 1 else 0 := by
  show ((List.replicate (2 ^ (2 * n)) (0 : Cx)).set 0 1).getD w 0 = _
  exact oneHot_getD _ _ hw

/-! ### The pure-state lift: success-path characterisation -/

theorem list_range_one : List.range 1 = [0] := rfl

theorem clone_from_states_spec (d : NoiseDevice) (s : Tensor) (n b : ℕ)
    (hn : d.n_wires = n)
    (hrank : (2 : ℤ) * ((s.dim : ℤ) - 1) = (d.densities.dim : ℤ) - 1)
    (hhead : s.shape.headD 0 = b)
    (hprod : s.shape.prod = b * 2 ^ n)
    (hlen : s.data.length = b * 2 ^ n) :
    ∃ D : Tensor,
      d.clone_from_states s = (none, { d with densities := D }) ∧
      D.shape = b :: List.replicate (2 * n) 2 ∧
      D.data.length = b * (2 ^ n * 2 ^ n) ∧
      ∀ i x y, i < b → x < 2 ^ n → y < 2 ^ n →
        D.data.getD (i * (2 ^ n * 2 ^ n) + (x * 2 ^ n + y)) 0 =
          s.data.getD (i * 2 ^ n + x) 0 * Cx.conj (s.data.getD (i * 2 ^ n + y) 0) := by
  have hN : 0 < 2 ^ n := Nat.pos_pow_of_pos n (by omega)
  set N := 2 ^ n with hNdef
  set sr : Tensor := ⟨[b, N, 1], s.data⟩ with hsr
  have hview : tview_m1 (2 ^ d.n_wires) s = some sr := by
    rw [hn, ← hNdef]
    unfold tview_m1
    rw [if_pos ⟨hN, hprod ▸ dvd_mul_left N b⟩, hprod, Nat.mul_div_cancel _ hN]
  have hsctd : ∀ z, z < b * N →
      (transpose12 (tconj sr)).data.getD z 0 = Cx.conj (s.data.getD z 0) := by
    intro z hz
    show ((List.range (b * 1 * N)).map fun idx =>
      (tconj sr).data.getD
        ((idx / (1 * N)) * (N * 1) + ((idx % (1 * N)) % N) * 1 + (idx % (1 * N)) / N)
        0).getD z 0 = _
    rw [list_getD_range_map _ _ _ _ (by simpa [Nat.mul_one, Nat.one_mul] using hz)]
    have hzN : z % N < N := Nat.mod_lt z hN
    have e1 : (z % N) % N = z % N := Nat.mod_eq_of_lt hzN
    have e2 : (z % N) / N = 0 := Nat.div_eq_of_lt hzN
    simp only [Nat.one_mul, Nat.mul_one, e1, e2, Nat.add_zero]
    rw [Nat.div_add_mod' z N]
    show (s.data.map Cx.conj).getD z 0 = _
    rw [list_getD_map Cx.conj s.data z 0 0 (by omega : z < s.data.length)]
  have hprod_len : (bmm sr (transpose12 (tconj sr))).data.length = b * N * N := by
    show ((List.range (b * N * N)).map _).length = b * N * N
    rw [List.length_map, List.length_range]
  have hentry : ∀ i x y, i < b → x < N → y < N →
      (bmm sr (transpose12 (tconj sr))).data.getD (i * (N * N) + (x * N + y)) 0 =
        s.data.getD (i * N + x) 0 * Cx.conj (s.data.getD (i * N + y) 0) := by
    intro i x y hi hx hy
    have hxy : x * N + y < N * N := idx_lt hx hy
    have hidx : i * (N * N) + (x * N + y) < b * N * N := by
      rw [Nat.mul_assoc]
      exact slot_lt hi hxy
    show ((List.range (b * N * N)).map fun idx =>
      ((List.range 1).map fun k =>
        sr.data.getD ((idx / (N * N)) * (N * 1) + ((idx % (N * N)) / N) * 1 + k) 0 *
        (transpose12 (tconj sr)).data.getD
          ((idx / (N * N)) * (1 * N) + k * N + ((idx % (N * N)) % N)) 0).sum).getD
        (i * (N * N) + (x * N + y)) 0 = _
    rw [list_getD_range_map _ _ _ _ hidx]
    rw [decode_div hxy, decode_mod hxy, decode_div hy, decode_mod hy]
    rw [list_range_one]
    simp only [List.map_cons, List.map_nil, List.sum_cons, List.sum_nil, add_zero,
      Nat.mul_one, Nat.one_mul, Nat.add_zero, Nat.zero_mul]
    rw [hsctd (i * N + y) (slot_lt hi hy)]
  have hresh : treshape (s.shape.headD 0 :: List.replicate (2 * d.n_wires) 2)
      (bmm sr (transpose12 (tconj sr))) =
      some ⟨b :: List.replicate (2 * n) 2, (bmm sr (transpose12 (tconj sr))).data⟩ := by
    rw [hn, hhead]
    unfold treshape
    have hc : (b :: List.replicate (2 * n) 2).prod =
        (bmm sr (transpose12 (tconj sr))).shape.prod := by
      show b * (List.replicate (2 * n) 2).prod = ([b, N, N] : List ℕ).prod
      simp only [List.prod_cons, List.prod_replicate, List.prod_nil, mul_one, pow_two_mul]
    rw [if_pos hc]
  refine ⟨⟨b :: List.replicate (2 * n) 2, (bmm sr (transpose12 (tconj sr))).data⟩,
    ?_, rfl, ?_, ?_⟩
  · unfold NoiseDevice.clone_from_states
    rw [if_pos hrank, hview]
    dsimp only
    rw [hresh]
  · show (bmm sr (transpose12 (tconj sr))).data.length = b * (N * N)
    rw [hprod_len, Nat.mul_assoc]
  · exact hentry

/-! ### Frame behaviour of the clone operations -/

theorem clone_from_states_frame (d : NoiseDevice) (s : Tensor) :
    (d.clone_from_states s).2.n_wires = d.n_wires ∧
    (d.clone_from_states s).2.device_name = d.device_name ∧
    (d.clone_from_states s).2.bsz = d.bsz ∧
    (d.clone_from_states s).2.device = d.device ∧
    (d.clone_from_states s).2.density = d.density ∧
    (d.clone_from_states s).2.record_op = d.record_op ∧
    (d.clone_from_states s).2.op_history = d.op_history ∧
    (d.clone_from_states s).2.noise_model = d.noise_model := by
  unfold NoiseDevice.clone_from_states
  split
  · split
    · exact ⟨rfl, rfl, rfl, rfl, rfl, rfl, rfl, rfl⟩
    · dsimp only
      split
      · exact ⟨rfl, rfl, rfl, rfl, rfl, rfl, rfl, rfl⟩
      · exact ⟨rfl, rfl, rfl, rfl, rfl, rfl, rfl, rfl⟩
  · exact ⟨rfl, rfl, rfl, rfl, rfl, rfl, rfl, rfl⟩

/-! ### Trace and probabilities of a fresh device -/

theorem init_trace (n b i : ℕ) (dn dev : String) (ro : Bool) (nm : NoiseModel)
    (hi : i < b) :
    (NoiseDevice.init n dn b dev ro nm).calc_trace i = some 1 := by
  have hN : 0 < 2 ^ n := Nat.pos_pow_of_pos n (by omega)
  rw [calc_trace_spec (NoiseDevice.init n dn b dev ro nm) n b i rfl
    (init_densities_shape n dn b dev ro nm)]
  congr 1
  apply sum_range_one_hot _ _ hN
  · have hb0 : (0 : ℕ) * 2 ^ n + 0 < 2 ^ n * 2 ^ n := by
      simp only [Nat.zero_mul, Nat.zero_add]
      exact Nat.mul_pos hN hN
    rw [init_densities_getD n dn b dev ro nm _ (by rw [pow_two_mul]; exact slot_lt hi hb0)]
    rw [if_pos]
    simp only [Nat.zero_mul, Nat.add_zero, pow_two_mul]
    exact Nat.mul_mod_left i (2 ^ n * 2 ^ n)
  · intro j hj hj0
    have hjj : j * 2 ^ n + j < 2 ^ n * 2 ^ n := idx_lt hj hj
    rw [init_densities_getD n dn b dev ro nm _ (by rw [pow_two_mul]; exact slot_lt hi hjj)]
    rw [if_neg]
    rw [pow_two_mul, decode_mod hjj]
    intro hzero
    exact hj0 ((Nat.add_eq_zero.mp hzero).2)

theorem Cx.abs_zero : Cx.abs 0 = 0 := by
  simp [Cx.abs]

theorem Cx.abs_one : Cx.abs 1 = 1 := by
  simp [Cx.abs]

theorem init_probs_row0 (n b : ℕ) (dn dev : String) (ro : Bool) (nm : NoiseModel)
    (hb : 0 < b) :
    ∃ p, (NoiseDevice.init n dn b dev ro nm).get_probs_1d = some p ∧
      p.length = b ∧
      p.getD 0 [] = (List.range (2 ^ n)).map fun j => if j = 0 then (1 : ℝ) else 0 := by
  have hN : 0 < 2 ^ n := Nat.pos_pow_of_pos n (by omega)
  refine ⟨_, get_probs_1d_spec (NoiseDevice.init n dn b dev ro nm) n b rfl
    (init_densities_shape n dn b dev ro nm), ?_, ?_⟩
  · rw [List.length_map, List.length_range]
  · rw [list_getD_range_map _ _ _ _ hb]
    apply map_congr_range
    intro j hj
    have hjj : j * 2 ^ n + j < 2 ^ n * 2 ^ n := idx_lt hj hj
    rw [Nat.zero_mul, Nat.zero_add]
    rw [init_densities_getD n dn b dev ro nm _ (by
      rw [pow_two_mul]
      calc j * 2 ^ n + j < 2 ^ n * 2 ^ n := hjj
      _ ≤ b * (2 ^ n * 2 ^ n) := Nat.le_mul_of_pos_left _ hb)]
    have hmod : (j * 2 ^ n + j) % 2 ^ (2 * n) = j * 2 ^ n + j := by
      rw [pow_two_mul]
      exact Nat.mod_eq_of_lt hjj
    rw [hmod]
    rcases Nat.eq_zero_or_pos j with hj0 | hj0
    · subst hj0
      simp [Cx.abs_one]
    · rw [if_neg (by omega : ¬(j = 0)), if_neg (by
        intro hzero
        omega)]
      exact Cx.abs_zero

/-! ### Claim theorems -/

/-- Claim C2: for every `n_wires >= 1` and `batch_size >= 1`, a freshly
constructed device has a densities buffer of shape
`[batch_size] + [2]*(2*n_wires)`, and `Trace(i) = 1` for every batch index
`i` (each batch element is the replicated pure ground state). -/
theorem tq_C2 (n b : ℕ) (dn dev : String) (ro : Bool) (nm : NoiseModel)
    (_hn : 1 ≤ n) (_hb : 1 ≤ b) :
    (NoiseDevice.init n dn b dev ro nm).densities.shape =
      b :: List.replicate (2 * n) 2 ∧
    ∀ i, i < b → (NoiseDevice.init n dn b dev ro nm).calc_trace i = some 1 :=
  ⟨init_densities_shape n dn b dev ro nm,
   fun i hi => init_trace n b i dn dev ro nm hi⟩

/-- Witness for C2 at `n_wires = 1`, `bsz = 1`, batch index 0. -/
theorem tq_C2_witness :
    (1 ≤ 1 ∧ 1 ≤ 1 ∧ 0 < 1) ∧
    ((NoiseDevice.init 1 "noisedevice" 1 "cpu" false nm0).densities.shape =
      1 :: List.replicate 2 2 ∧
     (NoiseDevice.init 1 "noisedevice" 1 "cpu" false nm0).calc_trace 0 = some 1) :=
  ⟨⟨le_refl 1, le_refl 1, Nat.zero_lt_one⟩,
   (tq_C2 1 1 "noisedevice" "cpu" false nm0 (le_refl 1) (le_refl 1)).1,
   (tq_C2 1 1 "noisedevice" "cpu" false nm0 (le_refl 1) (le_refl 1)).2 0 Nat.zero_lt_one⟩

/-- Claim C6: for every freshly constructed device with `n_wires = n`, row 0 of
`get_probs_1d` is a real vector of length `2 ^ n` which is 1 at index 0 and 0
elsewhere. -/
theorem tq_C6 (n b : ℕ) (dn dev : String) (ro : Bool) (nm : NoiseModel)
    (_hn : 0 < n) (hb : 0 < b) :
    ∃ p, (NoiseDevice.init n dn b dev ro nm).get_probs_1d = some p ∧
      p.length = b ∧
      ((p.getD 0 []).length = 2 ^ n ∧
       p.getD 0 [] = (List.range (2 ^ n)).map fun j => if j = 0 then (1 : ℝ) else 0) := by
  obtain ⟨p, hp, hlen, hrow⟩ := init_probs_row0 n b dn dev ro nm hb
  exact ⟨p, hp, hlen, by rw [hrow, List.length_map, List.length_range], hrow⟩

/-- Witness for C6 at `n_wires = 1`, `bsz = 1`. -/
theorem tq_C6_witness :
    ((0 : ℕ) < 1 ∧ (0 : ℕ) < 1) ∧
    ∃ p, (NoiseDevice.init 1 "noisedevice" 1 "cpu" false nm0).get_probs_1d = some p ∧
      p.length = 1 ∧
      ((p.getD 0 []).length = 2 ^ 1 ∧
       p.getD 0 [] = (List.range (2 ^ 1)).map fun j => if j = 0 then (1 : ℝ) else 0) :=
  ⟨⟨Nat.zero_lt_one, Nat.zero_lt_one⟩,
   tq_C6 1 1 "noisedevice" "cpu" false nm0 Nat.zero_lt_one Nat.zero_lt_one⟩

/-- Claim C7: for qubit counts `n` in `{1, 2, 3, 4}`, for every buffer state in
the standard layout and every batch index `i`, the 2D matrix view followed by a
reshape back into the expanded per-qubit layout reproduces the original batch
element bit-exactly. -/
theorem tq_C7 (n b i : ℕ) (d : NoiseDevice)
    (_hn14 : n = 1 ∨ n = 2 ∨ n = 3 ∨ n = 4)
    (hn : d.n_wires = n)
    (hsh : d.densities.shape = b :: List.replicate (2 * n) 2)
    (_hi : i < b) :
    ∃ M, d.get_2d_matrix i = some M ∧
      treshape (List.replicate (2 * n) 2) M = some (tindex d.densities i) := by
  refine ⟨_, get_2d_matrix_spec d n b i hn hsh, ?_⟩
  unfold treshape
  rw [if_pos (by
    show (List.replicate (2 * n) 2).prod = ([2 ^ n, 2 ^ n] : List ℕ).prod
    simp only [List.prod_replicate, List.prod_cons, List.prod_nil, mul_one, pow_two_mul])]
  unfold tindex
  rw [hsh]
  simp only [List.tail_cons, List.prod_replicate, pow_two_mul]

/-- Witness for C7 at `n_wires = 1`, a fresh batch-1 device, batch index 0. -/
theorem tq_C7_witness :
    (tq_dev11.n_wires = 1 ∧ tq_dev11.densities.shape = 1 :: List.replicate 2 2 ∧
      (0 : ℕ) < 1) ∧
    ∃ M, tq_dev11.get_2d_matrix 0 = some M ∧
      treshape (List.replicate 2 2) M = some (tindex tq_dev11.densities 0) :=
  ⟨⟨rfl, rfl, Nat.zero_lt_one⟩,
   tq_C7 1 1 0 tq_dev11 (Or.inl rfl) rfl rfl Nat.zero_lt_one⟩

/-- Claim C9: `reset_op_history` empties the operation ledger and leaves the
densities buffer, the density snapshot, `n_wires`, `bsz`, and the noise model
unchanged. -/
theorem tq_C9 (d : NoiseDevice) :
    d.reset_op_history.op_history = [] ∧
    d.reset_op_history.densities = d.densities ∧
    d.reset_op_history.density = d.density ∧
    d.reset_op_history.n_wires = d.n_wires ∧
    d.reset_op_history.bsz = d.bsz ∧
    d.reset_op_history.noise_model = d.noise_model :=
  ⟨rfl, rfl, rfl, rfl, rfl, rfl⟩

theorem list_range_two : List.range 2 = [0, 1] := rfl

/-- Claim C1: for every device and pure-state batch of shape `[b, 2 ^ n]`
satisfying the rank precondition `2*(input rank - 1) == densities rank - 1`,
`clone_from_states` succeeds and sets `densities` to the batched conjugated
outer product in the expanded layout `[b] + [2]*(2*n)`: the 2D matrix view of
batch element `i` is the column `psi_i` times the conjugated row `psi_i`;
in particular for `n_wires = 1`, `bsz = 1`, lifting `[0, 1]` gives
`Probabilities(0) = [0, 1]` and `Trace(0) = 1`. -/
theorem tq_C1 :
    (∀ (n b : ℕ) (d : NoiseDevice) (s : Tensor),
      d.n_wires = n →
      s.shape = [b, 2 ^ n] →
      s.data.length = b * 2 ^ n →
      (2 : ℤ) * ((s.dim : ℤ) - 1) = (d.densities.dim : ℤ) - 1 →
      (d.clone_from_states s).1 = none ∧
      (d.clone_from_states s).2.densities.shape = b :: List.replicate (2 * n) 2 ∧
      ∀ i, i < b →
        ∃ M, (d.clone_from_states s).2.get_2d_matrix i = some M ∧
          M.shape = [2 ^ n, 2 ^ n] ∧
          ∀ x y, x < 2 ^ n → y < 2 ^ n →
            M.data.getD (x * 2 ^ n + y) 0 =
              s.data.getD (i * 2 ^ n + x) 0 * Cx.conj (s.data.getD (i * 2 ^ n + y) 0)) ∧
    (∃ p, (tq_dev11.clone_from_states tq_s01).2.get_probs_1d = some p ∧
      p.getD 0 [] = [(0 : ℝ), 1]) ∧
    (tq_dev11.clone_from_states tq_s01).2.calc_trace 0 = some 1 := by
  have hmain : ∀ (n b : ℕ) (d : NoiseDevice) (s : Tensor),
      d.n_wires = n →
      s.shape = [b, 2 ^ n] →
      s.data.length = b * 2 ^ n →
      (2 : ℤ) * ((s.dim : ℤ) - 1) = (d.densities.dim : ℤ) - 1 →
      (d.clone_from_states s).1 = none ∧
      (d.clone_from_states s).2.densities.shape = b :: List.replicate (2 * n) 2 ∧
      ∀ i, i < b →
        ∃ M, (d.clone_from_states s).2.get_2d_matrix i = some M ∧
          M.shape = [2 ^ n, 2 ^ n] ∧
          ∀ x y, x < 2 ^ n → y < 2 ^ n →
            M.data.getD (x * 2 ^ n + y) 0 =
              s.data.getD (i * 2 ^ n + x) 0 * Cx.conj (s.data.getD (i * 2 ^ n + y) 0) := by
    intro n b d s hn hsh hlen hrank
    have hhead : s.shape.headD 0 = b := by rw [hsh]; rfl
    have hprod : s.shape.prod = b * 2 ^ n := by
      rw [hsh]
      simp [List.prod_cons, List.prod_nil]
    obtain ⟨D, hcl, hshD, hlenD, hent⟩ :=
      clone_from_states_spec d s n b hn hrank hhead hprod hlen
    rw [hcl]
    refine ⟨rfl, hshD, ?_⟩
    intro i hi
    refine ⟨_, get_2d_matrix_spec _ n b i hn hshD, rfl, ?_⟩
    intro x y hx hy
    rw [list_getD_range_map _ _ _ _ (idx_lt hx hy)]
    exact hent i x y hi hx hy
  refine ⟨hmain, ?_, ?_⟩
  all_goals
    obtain ⟨D, hcl, hshD, hlenD, hent⟩ :=
      clone_from_states_spec tq_dev11 tq_s01 1 1 rfl (by decide) rfl (by decide) (by decide)
  all_goals
    have e0 : D.data.getD 0 0 = 0 := by
      have h := hent 0 0 0 (by norm_num) (by norm_num) (by norm_num)
      rw [show (0 * (2 ^ 1 * 2 ^ 1) + (0 * 2 ^ 1 + 0) : ℕ) = 0 from by norm_num,
        show (0 * 2 ^ 1 + 0 : ℕ) = 0 from by norm_num] at h
      rw [h]
      show (0 : Cx) * Cx.conj 0 = 0
      simp
  all_goals
    have e3 : D.data.getD 3 0 = 1 := by
      have h := hent 0 1 1 (by norm_num) (by norm_num) (by norm_num)
      rw [show (0 * (2 ^ 1 * 2 ^ 1) + (1 * 2 ^ 1 + 1) : ℕ) = 3 from by norm_num,
        show (0 * 2 ^ 1 + 1 : ℕ) = 1 from by norm_num] at h
      rw [h]
      show (1 : Cx) * Cx.conj 1 = 1
      simp
  · rw [hcl]
    refine ⟨_, get_probs_1d_spec _ 1 1 rfl hshD, ?_⟩
    rw [list_getD_range_map _ _ _ _ Nat.zero_lt_one]
    dsimp only
    rw [pow_one, list_range_two]
    simp only [List.map_cons, List.map_nil]
    rw [show (0 * (2 * 2) + 0 * 2 + 0 : ℕ) = 0 from by norm_num,
      show (0 * (2 * 2) + 1 * 2 + 1 : ℕ) = 3 from by norm_num,
      e0, e3, Cx.abs_zero, Cx.abs_one]
  · rw [hcl]
    rw [calc_trace_spec _ 1 1 0 rfl hshD]
    dsimp only
    rw [pow_one, list_range_two]
    simp only [List.map_cons, List.map_nil]
    rw [show (0 * (2 * 2) + (0 * 2 + 0) : ℕ) = 0 from by norm_num,
      show (0 * (2 * 2) + (1 * 2 + 1) : ℕ) = 3 from by norm_num,
      e0, e3]
    simp

/-- Witness for C1: the general conjunct applied at `n_wires = 1`, `bsz = 1`,
state batch `[[0, 1]]`. -/
theorem tq_C1_witness :
    (tq_dev11.n_wires = 1 ∧ tq_s01.shape = [1, 2 ^ 1] ∧
     tq_s01.data.length = 1 * 2 ^ 1 ∧
     (2 : ℤ) * ((tq_s01.dim : ℤ) - 1) = (tq_dev11.densities.dim : ℤ) - 1) ∧
    ((tq_dev11.clone_from_states tq_s01).1 = none ∧
     (tq_dev11.clone_from_states tq_s01).2.densities.shape =
       1 :: List.replicate (2 * 1) 2 ∧
     ∀ i, i < 1 →
       ∃ M, (tq_dev11.clone_from_states tq_s01).2.get_2d_matrix i = some M ∧
         M.shape = [2 ^ 1, 2 ^ 1] ∧
         ∀ x y, x < 2 ^ 1 → y < 2 ^ 1 →
           M.data.getD (x * 2 ^ 1 + y) 0 =
             tq_s01.data.getD (i * 2 ^ 1 + x) 0 *
               Cx.conj (tq_s01.data.getD (i * 2 ^ 1 + y) 0)) :=
  ⟨⟨rfl, by decide, by decide, by decide⟩,
   tq_C1.1 1 1 tq_dev11 tq_s01 rfl (by decide) (by decide) (by decide)⟩

/-- Claim C5 (amended): for a standard-layout device and a pure-state batch in
the per-qubit expanded layout `[b] + [2]*n` (flattened row dimension `2 ^ n`,
the only layout accepted by the rank assert; for `n_wires = 1` this is the flat
`[b, 2 ^ n]` shape) with unit-norm rows, `clone_from_states` succeeds and
`Trace(i) = 1` for every batch index. -/
theorem tq_C5_amended (n b : ℕ) (d : NoiseDevice) (s : Tensor)
    (hn : d.n_wires = n)
    (hsh : s.shape = b :: List.replicate n 2)
    (hlen : s.data.length = b * 2 ^ n)
    (hrank : (2 : ℤ) * ((s.dim : ℤ) - 1) = (d.densities.dim : ℤ) - 1)
    (hnorm : ∀ i, i < b → ((List.range (2 ^ n)).map fun r =>
        (s.data.getD (i * 2 ^ n + r) 0).re ^ 2 +
        (s.data.getD (i * 2 ^ n + r) 0).im ^ 2).sum = 1) :
    (d.clone_from_states s).1 = none ∧
    ∀ i, i < b → (d.clone_from_states s).2.calc_trace i = some 1 := by
  have hhead : s.shape.headD 0 = b := by rw [hsh]; rfl
  have hprod : s.shape.prod = b * 2 ^ n := by
    rw [hsh]
    simp [List.prod_cons, List.prod_replicate]
  obtain ⟨D, hcl, hshD, hlenD, hent⟩ :=
    clone_from_states_spec d s n b hn hrank hhead hprod hlen
  rw [hcl]
  refine ⟨rfl, ?_⟩
  intro i hi
  dsimp only
  rw [calc_trace_spec ({ d with densities := D } : NoiseDevice) n b i hn hshD]
  have hptw : ∀ j, j < 2 ^ n →
      D.data.getD (i * (2 ^ n * 2 ^ n) + (j * 2 ^ n + j)) 0 =
        (⟨(s.data.getD (i * 2 ^ n + j) 0).re ^ 2 +
          (s.data.getD (i * 2 ^ n + j) 0).im ^ 2, 0⟩ : Cx) := by
    intro j hj
    rw [hent i j j hi hj hj]
    ext <;> simp <;> ring
  rw [map_congr_range _ _ _ hptw, sum_range_re_im _ _, hnorm i hi]
  rfl

/-- Witness for C5 (amended) at `n_wires = 1`, batch `[[0, 1]]`. -/
theorem tq_C5_witness :
    ((∀ i, i < 1 → ((List.range (2 ^ 1)).map fun r =>
        (tq_s01.data.getD (i * 2 ^ 1 + r) 0).re ^ 2 +
        (tq_s01.data.getD (i * 2 ^ 1 + r) 0).im ^ 2).sum = 1) ∧
     tq_s01.shape = 1 :: List.replicate 1 2) ∧
    ((tq_dev11.clone_from_states tq_s01).1 = none ∧
     ∀ i, i < 1 → (tq_dev11.clone_from_states tq_s01).2.calc_trace i = some 1) := by
  have hnorm : ∀ i, i < 1 → ((List.range (2 ^ 1)).map fun r =>
      (tq_s01.data.getD (i * 2 ^ 1 + r) 0).re ^ 2 +
      (tq_s01.data.getD (i * 2 ^ 1 + r) 0).im ^ 2).sum = 1 := by
    intro i hi
    have hi0 : i = 0 := by omega
    subst hi0
    rw [pow_one, list_range_two]
    simp only [List.map_cons, List.map_nil, List.sum_cons, List.sum_nil]
    rw [show tq_s01.data.getD (0 * 2 + 0) 0 = ⟨0, 0⟩ from rfl,
      show tq_s01.data.getD (0 * 2 + 1) 0 = ⟨1, 0⟩ from rfl]
    norm_num
  exact ⟨⟨hnorm, by decide⟩,
    tq_C5_amended 1 1 tq_dev11 tq_s01 rfl (by decide) (by decide) (by decide) hnorm⟩

theorem list_range_four : List.range 4 = [0, 1, 2, 3] := rfl

/-- Counterexample to C5 as stated: on a 2-qubit device, a unit-norm pure-state
batch of the flat shape `[b, 2 ^ n_wires]` is rejected by the rank assert of
`clone_from_states`, and `Trace(0)` afterwards is 2, not 1. -/
theorem tq_C5_cex :
    (∀ i, i < 1 → ((List.range (2 ^ 2)).map fun r =>
        (tq_sFlat.data.getD (i * 2 ^ 2 + r) 0).re ^ 2 +
        (tq_sFlat.data.getD (i * 2 ^ 2 + r) 0).im ^ 2).sum = 1) ∧
    tq_sFlat.shape = [1, 2 ^ 2] ∧
    (tq_dev2bad.clone_from_states tq_sFlat).1 = some CloneErr.assertFailed ∧
    (tq_dev2bad.clone_from_states tq_sFlat).2.calc_trace 0 ≠ some 1 := by
  refine ⟨?_, by decide, by decide, ?_⟩
  · intro i hi
    have hi0 : i = 0 := by omega
    subst hi0
    rw [show (2 : ℕ) ^ 2 = 4 from by norm_num, list_range_four]
    simp only [List.map_cons, List.map_nil, List.sum_cons, List.sum_nil]
    rw [show tq_sFlat.data.getD (0 * 4 + 0) 0 = ⟨1, 0⟩ from rfl,
      show tq_sFlat.data.getD (0 * 4 + 1) 0 = 0 from rfl,
      show tq_sFlat.data.getD (0 * 4 + 2) 0 = 0 from rfl,
      show tq_sFlat.data.getD (0 * 4 + 3) 0 = 0 from rfl]
    norm_num
  · have hdev : (tq_dev2bad.clone_from_states tq_sFlat).2 = tq_dev2bad := by decide
    rw [hdev]
    rw [calc_trace_spec tq_dev2bad 2 1 0 rfl (by decide)]
    rw [show (2 : ℕ) ^ 2 = 4 from by norm_num, list_range_four]
    simp only [List.map_cons, List.map_nil]
    rw [show (0 * (4 * 4) + (0 * 4 + 0) : ℕ) = 0 from by norm_num,
      show (0 * (4 * 4) + (1 * 4 + 1) : ℕ) = 5 from by norm_num,
      show (0 * (4 * 4) + (2 * 4 + 2) : ℕ) = 10 from by norm_num,
      show (0 * (4 * 4) + (3 * 4 + 3) : ℕ) = 15 from by norm_num]
    rw [show tq_dev2bad.densities.data.getD 0 0 = ⟨2, 0⟩ from rfl,
      show tq_dev2bad.densities.data.getD 5 0 = 0 from rfl,
      show tq_dev2bad.densities.data.getD 10 0 = 0 from rfl,
      show tq_dev2bad.densities.data.getD 15 0 = 0 from rfl]
    simp only [List.sum_cons, List.sum_nil, add_zero, zero_add]
    intro h
    have h2 : (⟨2, 0⟩ : Cx) = 1 := Option.some.inj h
    have := congrArg Cx.re h2
    norm_num at this

/-- Counterexample to C4 as stated: `clone_densities` does not raise on a
source whose shape is inconsistent with the `[*, 2]*(2*n)` layout; the call
completes and installs the mis-shaped source, changing the buffer. -/
theorem tq_C4_cex :
    tq_tBad.shape = [3] ∧
    (tq_dev11.clone_densities tq_tBad).densities = tq_tBad ∧
    (tq_dev11.clone_densities tq_tBad).densities ≠ tq_dev11.densities :=
  ⟨rfl, rfl, by decide⟩

/-- Claim C4 (amended): `clone_densities` performs no shape validation: every
source tensor is accepted, and the densities buffer is wholesale replaced by a
copy of the source, adopting its batch size and shape. -/
theorem tq_C4_amended (d : NoiseDevice) (t : Tensor) :
    (d.clone_densities t).densities = t ∧
    (d.clone_densities t).densities.shape = t.shape :=
  ⟨rfl, rfl⟩

/-- Claim C8: every state view (`get_2d_matrix`, `get_densities_2d`,
`calc_trace`, `get_probs_1d`, `get_prob_1d`, `get_density_2d`, `print_2d`) is
a pure read: it is computed fresh from the current buffer contents (and
`n_wires`) alone, so two devices agreeing on those fields give identical view
results, whatever their other fields and history. -/
theorem tq_C8 (d₁ d₂ : NoiseDevice)
    (hw : d₁.n_wires = d₂.n_wires)
    (hds : d₁.densities = d₂.densities)
    (hd : d₁.density = d₂.density) :
    (∀ i, d₁.get_2d_matrix i = d₂.get_2d_matrix i) ∧
    d₁.get_densities_2d = d₂.get_densities_2d ∧
    (∀ i, d₁.calc_trace i = d₂.calc_trace i) ∧
    d₁.get_probs_1d = d₂.get_probs_1d ∧
    d₁.get_prob_1d = d₂.get_prob_1d ∧
    d₁.get_density_2d = d₂.get_density_2d ∧
    (∀ i, d₁.print_2d i = d₂.print_2d i) := by
  unfold NoiseDevice.get_2d_matrix NoiseDevice.get_densities_2d NoiseDevice.calc_trace
    NoiseDevice.get_probs_1d NoiseDevice.get_prob_1d NoiseDevice.get_density_2d
    NoiseDevice.print_2d
  rw [hw, hds, hd]
  exact ⟨fun i => rfl, rfl, fun i => rfl, rfl, rfl, rfl, fun i => rfl⟩

/-- Witness for C8: two devices with equal buffers but different other fields
give the same trace and probabilities. -/
theorem tq_C8_witness :
    (tq_dev11.n_wires = tq_dev11b.n_wires ∧ tq_dev11.densities = tq_dev11b.densities ∧
     tq_dev11.density = tq_dev11b.density ∧ tq_dev11.bsz ≠ tq_dev11b.bsz) ∧
    (tq_dev11.calc_trace 0 = tq_dev11b.calc_trace 0 ∧
     tq_dev11.get_probs_1d = tq_dev11b.get_probs_1d) :=
  ⟨⟨rfl, rfl, rfl, by decide⟩,
   (tq_C8 tq_dev11 tq_dev11b rfl rfl rfl).2.2.1 0,
   (tq_C8 tq_dev11 tq_dev11b rfl rfl rfl).2.2.2.1⟩

/-- Counterexample to C3 as stated: on a 1-qubit device, the state batch
`[[1,0,0,0]]` of shape `[1, 4]` (flattened per-element dimension 4, not 2)
makes `clone_from_states` raise, but the buffer is NOT left unchanged: the
intermediate assignment `self.densities = torch.bmm(...)` has replaced it with
a `[2, 2, 2]` tensor before the final reshape fails. -/
theorem tq_C3_cex :
    tq_sFlat.shape.tail.prod ≠ 2 ^ tq_dev11.n_wires ∧
    (tq_dev11.clone_from_states tq_sFlat).1.isSome = true ∧
    (tq_dev11.clone_from_states tq_sFlat).2.densities.shape ≠
      tq_dev11.densities.shape ∧
    (tq_dev11.clone_from_states tq_sFlat).2.densities ≠ tq_dev11.densities :=
  ⟨by decide, by decide, by decide,
   fun h => absurd (congrArg Tensor.shape h) (by decide)⟩

/-- Claim C3 (amended): a state batch whose flattened per-element dimension is
not `2 ^ n_wires` always makes `clone_from_states` raise; the buffer is
unchanged when the failure is the rank assert or the `view` (when `2 ^ n_wires`
does not divide the total element count), but when the rank matches and the
division is exact the buffer is left overwritten with the intermediate batched
outer product of shape `[numel / 2 ^ n_wires, 2 ^ n_wires, 2 ^ n_wires]`. -/
theorem tq_C3_amended (d : NoiseDevice) (s : Tensor) (b : ℕ)
    (hhead : s.shape.headD 0 = b)
    (hb : 0 < b)
    (hm : s.shape.tail.prod ≠ 2 ^ d.n_wires) :
    (d.clone_from_states s).1 ≠ none ∧
    ((¬ (2 : ℤ) * ((s.dim : ℤ) - 1) = (d.densities.dim : ℤ) - 1 ∨
      ¬ 2 ^ d.n_wires ∣ s.shape.prod) → (d.clone_from_states s).2 = d) ∧
    ((2 : ℤ) * ((s.dim : ℤ) - 1) = (d.densities.dim : ℤ) - 1 →
      2 ^ d.n_wires ∣ s.shape.prod →
      (d.clone_from_states s).2.densities.shape =
        [s.shape.prod / 2 ^ d.n_wires, 2 ^ d.n_wires, 2 ^ d.n_wires]) := by
  have hN : 0 < 2 ^ d.n_wires := Nat.pos_pow_of_pos _ (by omega)
  have hshape_cons : s.shape.prod = b * s.shape.tail.prod := by
    rcases hs : s.shape with _ | ⟨h0, tl⟩
    · rw [hs] at hhead
      simp only [List.headD_nil] at hhead
      omega
    · rw [hs] at hhead
      simp only [List.headD_cons] at hhead
      simp only [List.prod_cons, List.tail_cons, hhead]
  by_cases hP : (2 : ℤ) * ((s.dim : ℤ) - 1) = (d.densities.dim : ℤ) - 1
  · by_cases hQ : 2 ^ d.n_wires ∣ s.shape.prod
    · set srt : Tensor :=
        Tensor.mk [s.shape.prod / 2 ^ d.n_wires, 2 ^ d.n_wires, 1] s.data with hsrt
      have hview : tview_m1 (2 ^ d.n_wires) s = some srt := by
        unfold tview_m1
        rw [if_pos ⟨hN, hQ⟩]
      have hne : ¬ ((s.shape.headD 0 :: List.replicate (2 * d.n_wires) 2).prod =
          (bmm srt (transpose12 (tconj srt))).shape.prod) := by
        rw [hhead]
        show ¬ ((b :: List.replicate (2 * d.n_wires) 2).prod =
          ([s.shape.prod / 2 ^ d.n_wires, 2 ^ d.n_wires, 2 ^ d.n_wires] : List ℕ).prod)
        simp only [List.prod_cons, List.prod_replicate, List.prod_nil, mul_one, pow_two_mul]
        intro heq
        have hb2 : b = s.shape.prod / 2 ^ d.n_wires :=
          Nat.eq_of_mul_eq_mul_right (Nat.mul_pos hN hN) heq
        have hpr : s.shape.prod = b * 2 ^ d.n_wires := by
          rw [hb2]
          exact (Nat.div_mul_cancel hQ).symm
        rw [hshape_cons] at hpr
        exact hm (Nat.eq_of_mul_eq_mul_left hb hpr)
      have hfail : treshape (s.shape.headD 0 :: List.replicate (2 * d.n_wires) 2)
          (bmm srt (transpose12 (tconj srt))) = none := by
        unfold treshape
        exact if_neg hne
      have hres : d.clone_from_states s =
          (some CloneErr.reshapeFailed,
           { d with densities := bmm srt (transpose12 (tconj srt)) }) := by
        unfold NoiseDevice.clone_from_states
        rw [if_pos hP, hview]
        dsimp only
        rw [hfail]
      refine ⟨by rw [hres]; simp, ?_, ?_⟩
      · intro hcase
        rcases hcase with h | h
        · exact absurd hP h
        · exact absurd hQ h
      · intro _ _
        rw [hres]
        rfl
    · have hviewn : tview_m1 (2 ^ d.n_wires) s = none := by
        unfold tview_m1
        exact if_neg (fun hc => hQ hc.2)
      have hres : d.clone_from_states s = (some CloneErr.viewFailed, d) := by
        unfold NoiseDevice.clone_from_states
        rw [if_pos hP, hviewn]
      exact ⟨by rw [hres]; simp, fun _ => by rw [hres], fun _ hQ2 => absurd hQ2 hQ⟩
  · have hres : d.clone_from_states s = (some CloneErr.assertFailed, d) := by
      unfold NoiseDevice.clone_from_states
      rw [if_neg hP]
    exact ⟨by rw [hres]; simp, fun _ => by rw [hres], fun hP2 _ => absurd hP2 hP⟩

/-- Witness for C3 (amended) at the `[1, 4]` input on a 1-qubit device. -/
theorem tq_C3_witness :
    (tq_sFlat.shape.headD 0 = 1 ∧ (0 : ℕ) < 1 ∧
     tq_sFlat.shape.tail.prod ≠ 2 ^ tq_dev11.n_wires) ∧
    ((tq_dev11.clone_from_states tq_sFlat).1 ≠ none ∧
     ((¬ (2 : ℤ) * ((tq_sFlat.dim : ℤ) - 1) = (tq_dev11.densities.dim : ℤ) - 1 ∨
       ¬ 2 ^ tq_dev11.n_wires ∣ tq_sFlat.shape.prod) →
       (tq_dev11.clone_from_states tq_sFlat).2 = tq_dev11) ∧
     ((2 : ℤ) * ((tq_sFlat.dim : ℤ) - 1) = (tq_dev11.densities.dim : ℤ) - 1 →
       2 ^ tq_dev11.n_wires ∣ tq_sFlat.shape.prod →
       (tq_dev11.clone_from_states tq_sFlat).2.densities.shape =
         [tq_sFlat.shape.prod / 2 ^ tq_dev11.n_wires, 2 ^ tq_dev11.n_wires,
          2 ^ tq_dev11.n_wires])) :=
  ⟨⟨rfl, Nat.zero_lt_one, by decide⟩,
   tq_C3_amended tq_dev11 tq_sFlat 1 rfl Nat.zero_lt_one (by decide)⟩

/-- Claim C10: neither clone updates any field but `densities`: `n_wires`,
`bsz`, the snapshot `density`, the noise model and the ledger survive both
`clone_densities` and `clone_from_states`; when a clone adopts a source batch
size different from the receiver current `bsz`, the `bsz` attribute no longer
equals `densities.shape[0]`; the batched views size themselves from
`densities.shape[0]` (not from `bsz`); and the snapshot views still report the
original ground state. -/
theorem tq_C10 :
    (∀ (d : NoiseDevice) (t : Tensor),
      (d.clone_densities t).densities = t ∧
      (d.clone_densities t).n_wires = d.n_wires ∧
      (d.clone_densities t).bsz = d.bsz ∧
      (d.clone_densities t).density = d.density ∧
      (d.clone_densities t).noise_model = d.noise_model ∧
      (d.clone_densities t).op_history = d.op_history) ∧
    (∀ (d : NoiseDevice) (s : Tensor),
      (d.clone_from_states s).2.n_wires = d.n_wires ∧
      (d.clone_from_states s).2.bsz = d.bsz ∧
      (d.clone_from_states s).2.density = d.density ∧
      (d.clone_from_states s).2.noise_model = d.noise_model ∧
      (d.clone_from_states s).2.op_history = d.op_history) ∧
    (∀ (d : NoiseDevice) (t : Tensor), t.shape.headD 0 ≠ d.bsz →
      (d.clone_densities t).bsz ≠ (d.clone_densities t).densities.shape.headD 0) ∧
    (∀ (d : NoiseDevice) (t : Tensor) (p : List (List ℝ)),
      (d.clone_densities t).get_probs_1d = some p → p.length = t.shape.headD 0) ∧
    (∀ (d : NoiseDevice) (t : Tensor) (M : Tensor),
      (d.clone_densities t).get_densities_2d = some M →
        M.shape = [t.shape.headD 0, 2 ^ d.n_wires, 2 ^ d.n_wires]) ∧
    (∀ (d : NoiseDevice) (t : Tensor),
      (d.clone_densities t).get_prob_1d = d.get_prob_1d ∧
      (d.clone_densities t).get_density_2d = d.get_density_2d) ∧
    (∀ (n b : ℕ) (dn dev : String) (ro : Bool) (nm : NoiseModel) (t : Tensor),
      ((NoiseDevice.init n dn b dev ro nm).clone_densities t).get_prob_1d =
        some ((List.range (2 ^ n)).map fun j => if j = 0 then (1 : ℝ) else 0)) := by
  refine ⟨fun d t => ⟨rfl, rfl, rfl, rfl, rfl, rfl⟩, ?_, ?_, ?_, ?_, ?_, ?_⟩
  · intro d s
    obtain ⟨h1, _, h3, _, h5, _, h7, h8⟩ := clone_from_states_frame d s
    exact ⟨h1, h3, h5, h8, h7⟩
  · intro d t hne
    exact fun h => hne (h.symm)
  · intro d t p hp
    unfold NoiseDevice.get_probs_1d treshape at hp
    dsimp only at hp
    split at hp
    · simp only [Option.map_some'] at hp
      injection hp with hp2
      rw [← hp2, List.length_map, List.length_range]
      rfl
    · simp at hp
  · intro d t M hM
    unfold NoiseDevice.get_densities_2d treshape at hM
    split at hM
    · injection hM with hM2
      rw [← hM2]
      rfl
    · simp at hM
  · exact fun d t => ⟨rfl, rfl⟩
  · intro n b dn dev ro nm t
    have hN : 0 < 2 ^ n := Nat.pos_pow_of_pos n (by omega)
    rw [get_prob_1d_spec (((NoiseDevice.init n dn b dev ro nm)).clone_densities t) n
      rfl (init_density_shape n dn b dev ro nm)]
    congr 1
    apply map_congr_range
    intro j hj
    have hjj : j * 2 ^ n + j < 2 ^ n * 2 ^ n := idx_lt hj hj
    show Cx.abs ((NoiseDevice.init n dn b dev ro nm).density.data.getD (j * 2 ^ n + j) 0) = _
    rw [init_density_getD n dn b dev ro nm _ (by rw [pow_two_mul]; exact hjj)]
    rcases Nat.eq_zero_or_pos j with hj0 | hj0
    · subst hj0
      simp [Cx.abs_one]
    · rw [if_neg (by
        intro hzero
        omega), if_neg (by omega : ¬ (j = 0))]
      exact Cx.abs_zero

/-- Witness for C10: cloning a rank-1 size-3 tensor into a fresh batch-1
one-qubit device makes `bsz` disagree with `densities.shape[0]`, while the
snapshot probability view still reports the ground state. -/
theorem tq_C10_witness :
    (tq_tBad.shape.headD 0 ≠ tq_dev11.bsz) ∧
    ((tq_dev11.clone_densities tq_tBad).bsz ≠
      (tq_dev11.clone_densities tq_tBad).densities.shape.headD 0) ∧
    ((NoiseDevice.init 1 "noisedevice" 1 "cpu" false nm0).clone_densities
        tq_tBad).get_prob_1d =
      some ((List.range (2 ^ 1)).map fun j => if j = 0 then (1 : ℝ) else 0) :=
  ⟨by decide, tq_C10.2.2.1 tq_dev11 tq_tBad (by decide),
   tq_C10.2.2.2.2.2.2 1 1 "noisedevice" "cpu" false nm0 tq_tBad⟩
